import Mathlib

/-!
Shallow embedding of `httpcore/adapters/redirects.py` (RedirectAdapter):
the redirect loop controller (`send`), the request transformation rules
(`redirect_method`, `redirect_url`, `redirect_headers`, `redirect_body`,
`build_redirect_request`) and the deferred continuation (`response.next`,
modelled as captured data plus `resume`).

External collaborators (URL utilities, the Headers/URL/Response data
classes, the status-code registry) are not part of the adapter's source;
they are modelled from the spec, either as concrete functions
(header lookup/deletion, redirect classification) or as a record of
abstract URL primitives (`UrlPrims`) over which the adapter's functions
are parametrised.
-/

namespace Httpcore

/-- ASCII lowercase of one character (model of Python `str.lower` per char). -/
def lcChar (c : Char) : Char :=
  if 'A' ≤ c ∧ c ≤ 'Z' then Char.ofNat (c.toNat + 32) else c

/-- ASCII lowercase of a string (model of Python `str.lower`). -/
def lc (s : String) : String := ⟨s.data.map lcChar⟩

/-- Test that `s` starts with `pre` (model of Python `str.startswith`). -/
def strStarts (s pre : String) : Bool := decide (s.data.take pre.data.length = pre.data)

/-- Header list: ordered, case-insensitive multimap of name/value pairs. -/
abbrev HeadersL := List (String × String)

/-- Modelled from the spec: case-insensitive lookup in the external Headers
mapping (`headers[name]`): the first entry whose name matches. -/
def headerGet (hs : HeadersL) (name : String) : Option String :=
  (hs.find? (fun kv => lc kv.1 = lc name)).map Prod.snd

/-- Modelled from the spec: case-insensitive deletion by name in the external
Headers mapping (`del headers[name]`). -/
def headerDel (hs : HeadersL) (name : String) : HeadersL :=
  hs.filter (fun kv => lc kv.1 ≠ lc name)

/-- Request body: byte content, or the non-replayable streaming marker
(`request.is_streaming` in the external models). -/
inductive RBody where
  | bytes (data : List Nat)
  | streaming
deriving DecidableEq, Repr

/-- A request: method, URL (kept as its string form), headers, body. -/
structure Request where
  method : String
  url : String
  headers : HeadersL
  body : RBody
deriving DecidableEq, Repr

/-- Embedding of `request.is_streaming`. -/
def Request.is_streaming (r : Request) : Bool :=
  match r.body with
  | RBody.streaming => true
  | RBody.bytes _ => false

/-- What `self.dispatch.send` returns: status code and headers, before the
controller stamps history or a continuation onto it. -/
structure TResponse where
  status_code : Nat
  headers : HeadersL
deriving DecidableEq, Repr

/-- Modelled from the spec: redirect classification by the external
status-code authority: the set {301, 302, 303, 307, 308}. -/
def is_redirect (status : Nat) : Bool :=
  status == 301 || status == 302 || status == 303 || status == 307 || status == 308

/-- Modelled from the spec: `codes.see_other` of the status-code registry. -/
def codes.see_other : Nat := 303

/-- Modelled from the spec: `codes.found` of the status-code registry. -/
def codes.found : Nat := 302

/-- Modelled from the spec: `codes.moved_permanently` of the status-code registry. -/
def codes.moved_permanently : Nat := 301

/-- Abstract URL primitives consumed by the adapter: Python's `urlparse`
component access and `geturl` re-serialisation, `urljoin`, `requote_uri`,
and the external URL object's `scheme`/`fragment`/`origin` properties. -/
structure UrlPrims where
  schemeOf : String → String
  fragmentOf : String → String
  netlocOf : String → String
  withFragment : String → String → String
  geturl : String → String
  urljoin : String → String → String
  requote : String → String
  originOf : String → String

/-- Errors raised by the adapter. `MissingLocation` stands for the
precondition violation (absent `Location` header) that the spec assigns
to the caller, surfaced here as an error so the embedding stays total. -/
inductive HErr where
  | TooManyRedirects
  | RedirectLoop
  | RedirectBodyUnavailable
  | MissingLocation
deriving DecidableEq, Repr

/-- Embedding of `RedirectAdapter.redirect_method`: 303/302 turn non-HEAD methods into
GET, 301 turns POST into GET, in that textual order. -/
def redirect_method (request : Request) (response : TResponse) : String :=
  let method := request.method
  let method := if response.status_code = codes.see_other ∧ method ≠ "HEAD" then "GET" else method
  let method := if response.status_code = codes.found ∧ method ≠ "HEAD" then "GET" else method
  let method := if response.status_code = codes.moved_permanently ∧ method = "POST" then "GET" else method
  method

/-- Embedding of `RedirectAdapter.redirect_url`: read `Location`, prefix the scheme for
`//`-relative targets, inherit the request URL's fragment when the target
has none (`geturl`/`withFragment` reserialise the parse), then either join
the requoted target onto the request URL (no netloc) or requote it
directly (netloc present). `none` when `Location` is absent.
The netloc test reads the parse of `location`; replacing the fragment
does not change the netloc, so the test is taken on `location` itself. -/
def redirect_url (p : UrlPrims) (request : Request) (response : TResponse) : Option String :=
  (headerGet response.headers "Location").map (fun location0 =>
    let location := if strStarts location0 "//"
      then p.schemeOf request.url ++ ":" ++ location0 else location0
    let url := if p.fragmentOf location = "" ∧ p.fragmentOf request.url ≠ ""
      then p.withFragment location (p.fragmentOf request.url)
      else p.geturl location
    if p.netlocOf location = "" then p.urljoin request.url (p.requote url)
    else p.requote url)

/-- Embedding of `RedirectAdapter.redirect_headers`: copy the request headers and strip
`Authorization` when the next URL's origin differs from the request's. -/
def redirect_headers (p : UrlPrims) (request : Request) (url : String) : HeadersL :=
  let headers := request.headers
  if p.originOf url ≠ p.originOf request.url then headerDel headers "Authorization" else headers

/-- Embedding of `RedirectAdapter.redirect_body`: empty body on a downgrade to GET;
`RedirectBodyUnavailable` for a streaming body; otherwise the original bytes. -/
def redirect_body (request : Request) (method : String) : Except HErr (List Nat) :=
  if method ≠ request.method ∧ method = "GET" then Except.ok []
  else if request.is_streaming then Except.error HErr.RedirectBodyUnavailable
  else match request.body with
    | RBody.streaming => Except.error HErr.RedirectBodyUnavailable
    | RBody.bytes d => Except.ok d

/-- Embedding of `RedirectAdapter.build_redirect_request`. -/
def build_redirect_request (p : UrlPrims) (request : Request) (response : TResponse) :
    Except HErr Request :=
  let method := redirect_method request response
  match redirect_url p request response with
  | none => Except.error HErr.MissingLocation
  | some url =>
    let headers := redirect_headers p request url
    match redirect_body request method with
    | Except.error e => Except.error e
    | Except.ok body =>
      Except.ok { method := method, url := url, headers := headers, body := RBody.bytes body }

/-- A response as returned by the controller: status, headers, the stamped
history, and the optional deferred continuation (`response.next`), which
captures the next request with the chain state (history, seen URLs). -/
inductive Response where
  | mk (status_code : Nat) (headers : HeadersL) (history : List Response)
      (next : Option (Request × List Response × List String)) : Response

/-- Captured continuation data: next request, history, seen URLs. -/
abbrev ContData := Request × List Response × List String

def Response.status_code : Response → Nat
  | Response.mk s _ _ _ => s

def Response.headers : Response → HeadersL
  | Response.mk _ h _ _ => h

def Response.history : Response → List Response
  | Response.mk _ _ hist _ => hist

def Response.next : Response → Option ContData
  | Response.mk _ _ _ n => n

/-- Embedding of `seen_urls.add`: set insertion, modelled on lists. -/
def insertUrl (seen : List String) (u : String) : List String :=
  if u ∈ seen then seen else seen ++ [u]

/-- Outcome of a controller run. `outOfScript` is an artifact of driving the
transport by a finite script of responses: it marks a dispatch for which
the script supplies no response, and corresponds to no code path. -/
inductive SendResult where
  | ok (r : Response)
  | err (e : HErr)
  | outOfScript

/-- The loop of `RedirectAdapter.send`, driven by a script of transport
responses (one consumed per `dispatch.send`). Returns the list of URLs
dispatched (the trace) and the outcome. `seen_urls` is the state after
the entry `seen_urls.add(request.url)`. -/
def sendIter (p : UrlPrims) (maxRedirects : Nat) (allow_redirects : Bool) :
    List TResponse → Request → List Response → List String → List String × SendResult
  | [], _, _, _ => ([], SendResult.outOfScript)
  | t :: rest, request, history, seen_urls =>
    let response := Response.mk t.status_code t.headers history none
    if is_redirect t.status_code = false then
      ([request.url], SendResult.ok response)
    else
      match build_redirect_request p request t with
      | Except.error e => ([request.url], SendResult.err e)
      | Except.ok request' =>
        let history' := history ++ [response]
        if allow_redirects = false then
          ([request.url], SendResult.ok
            (Response.mk t.status_code t.headers history (some (request', history', seen_urls))))
        else if history'.length > maxRedirects then
          ([request.url], SendResult.err HErr.TooManyRedirects)
        else if request'.url ∈ seen_urls then
          ([request.url], SendResult.err HErr.RedirectLoop)
        else
          let r := sendIter p maxRedirects allow_redirects rest request' history'
            (insertUrl seen_urls request'.url)
          (request.url :: r.1, r.2)

/-- Embedding of `RedirectAdapter.send`: seed `seen_urls` with the request URL, then loop.
`history` and `seen_urls` are the optional pre-seeded state (empty for a
fresh top-level call; the captured state when resuming a continuation). -/
def send (p : UrlPrims) (maxRedirects : Nat) (request : Request) (allow_redirects : Bool)
    (history : List Response) (seen_urls : List String) (script : List TResponse) :
    List String × SendResult :=
  sendIter p maxRedirects allow_redirects script request history (insertUrl seen_urls request.url)

/-- Invoking `response.next`: `functools.partial(self.send, request=request,
seen_urls=..., history=...)` re-enters `send` with the captured request and
chain state; `allow_redirects` is not captured and is supplied at call time
(Python's default is `True` when not passed). -/
def resume (p : UrlPrims) (maxRedirects : Nat) (c : ContData) (allow_redirects : Bool)
    (script : List TResponse) : List String × SendResult :=
  send p maxRedirects c.1 allow_redirects c.2.1 c.2.2 script

/-- The next-URL computation as the spec states it: after scheme-prefixing
and fragment inheritance, a target without authority is resolved against
the request URL and the resolved result is then percent-re-encoded; a
target with authority is requoted directly. Spec-side definition, to be
compared with `redirect_url`. -/
def redirect_url_resolve_then_requote (p : UrlPrims) (request : Request) (response : TResponse) :
    Option String :=
  (headerGet response.headers "Location").map (fun location0 =>
    let location := if strStarts location0 "//"
      then p.schemeOf request.url ++ ":" ++ location0 else location0
    let url := if p.fragmentOf location = "" ∧ p.fragmentOf request.url ≠ ""
      then p.withFragment location (p.fragmentOf request.url)
      else p.geturl location
    if p.netlocOf location = "" then p.requote (p.urljoin request.url url)
    else p.requote url)

/-- The next-URL computation with the actual operation order of the source:
a target without authority is percent-re-encoded first and the re-encoded
target is then resolved against the request URL; a target with authority is
requoted directly. Spec-side definition of the amended claim, to be
compared with `redirect_url`. -/
def redirect_url_requote_then_resolve (p : UrlPrims) (request : Request) (response : TResponse) :
    Option String :=
  (headerGet response.headers "Location").map (fun location0 =>
    let location := if strStarts location0 "//"
      then p.schemeOf request.url ++ ":" ++ location0 else location0
    let url := if p.fragmentOf location = "" ∧ p.fragmentOf request.url ≠ ""
      then p.withFragment location (p.fragmentOf request.url)
      else p.geturl location
    if p.netlocOf location = "" then p.urljoin request.url (p.requote url)
    else p.requote url)

/-- A store of Headers objects, making Python object identity explicit:
references are indices into the store. Used to express that
`redirect_headers` operates on a fresh copy and leaves the request's own
headers object untouched. -/
structure HeaderStore where
  cells : List HeadersL

/-- Dereference a Headers object. -/
def HeaderStore.read (s : HeaderStore) (r : Nat) : HeadersL := s.cells.getD r []

/-- Allocate a fresh Headers object (`Headers(...)` constructs a new object). -/
def HeaderStore.alloc (s : HeaderStore) (h : HeadersL) : HeaderStore × Nat :=
  (⟨s.cells ++ [h]⟩, s.cells.length)

/-- In-place case-insensitive deletion on the object behind `r`
(`del headers[name]`). -/
def HeaderStore.delAt (s : HeaderStore) (r : Nat) (name : String) : HeaderStore :=
  ⟨s.cells.set r (headerDel (s.read r) name)⟩

/-- Embedding of `RedirectAdapter.redirect_headers` with object identity explicit:
`Headers(request.headers)` allocates a copy of the request's headers
object, and the `Authorization` deletion happens on that fresh object.
Returns the updated store and the reference to the new object. -/
def redirect_headers_obj (p : UrlPrims) (s : HeaderStore) (reqRef : Nat) (reqUrl url : String) :
    HeaderStore × Nat :=
  let a := s.alloc (s.read reqRef)
  (if p.originOf url ≠ p.originOf reqUrl then a.1.delAt a.2 "Authorization" else a.1, a.2)

/-- The history invariant: the `i`-th recorded response carries as its own
history exactly the `i` responses received before it, in order. -/
def HistInv (h : List Response) : Prop :=
  ∀ i, (hi : i < h.length) → (h.get ⟨i, hi⟩).history = h.take i

/-- Evaluation table for the external URL primitives, matching the Python
collaborators (`urlparse` components, `urljoin`, `requote_uri`, the URL
object's properties) on the concrete URLs exercised by the closed theorems
in this file. -/
def cp : UrlPrims where
  schemeOf := fun _ => "http"
  fragmentOf := fun _ => ""
  netlocOf := fun s =>
    if s = "http://a/" then "a" else if s = "http://b/" then "b"
    else if s = "http://c/" then "c" else ""
  withFragment := fun l f => l ++ "#" ++ f
  geturl := fun s => s
  urljoin := fun base target =>
    if base = "http://x/a b/" ∧ target = "y" then "http://x/a b/y" else base ++ target
  requote := fun s => if s = "http://x/a b/y" then "http://x/a%20b/y" else s
  originOf := fun s =>
    if s = "http://a/" then "http://a" else if s = "http://b/" then "http://b"
    else if s = "http://c/" then "http://c" else s

/-- A GET request to `http://a/` with no special headers. -/
def reqA : Request := { method := "GET", url := "http://a/", headers := [], body := RBody.bytes [] }

/-- A GET request to `http://b/` with no special headers (the request the
adapter builds from `reqA` and `t301B`). -/
def reqB : Request := { method := "GET", url := "http://b/", headers := [], body := RBody.bytes [] }

/-- A GET request to `http://a/` carrying an Authorization header. -/
def reqAuth : Request :=
  { method := "GET", url := "http://a/"
    headers := [("Authorization", "secret"), ("Accept", "x")], body := RBody.bytes [] }

/-- A GET request to `http://x/a b/` (a base URL containing a space). -/
def reqX : Request :=
  { method := "GET", url := "http://x/a b/", headers := [], body := RBody.bytes [] }

/-- Transport script entries. -/
def t301A : TResponse := { status_code := 301, headers := [("Location", "http://a/")] }

def t301B : TResponse := { status_code := 301, headers := [("Location", "http://b/")] }

def t301C : TResponse := { status_code := 301, headers := [("Location", "http://c/")] }

def t200 : TResponse := { status_code := 200, headers := [] }

/-- A redirect response whose `Location` is the relative reference `y`. -/
def tRelY : TResponse := { status_code := 301, headers := [("Location", "y")] }

/-- The 301-to-`http://a/` hop response as stamped by the controller. -/
def resp301A : Response := Response.mk 301 [("Location", "http://a/")] [] none

/-- The 301-to-`http://b/` hop response as stamped by the controller. -/
def resp301B : Response := Response.mk 301 [("Location", "http://b/")] [] none

/-- The continuation captured when `reqA` is answered by `t301A` in manual
mode: next request back to `http://a/`, history of one hop, `http://a/`
already visited. -/
def contA : ContData := (reqA, [resp301A], ["http://a/"])

/-- A one-cell store holding the headers object of `reqAuth`. -/
def st0 : HeaderStore := ⟨[[("Authorization", "secret"), ("Accept", "x")]]⟩

lemma headerGet_cons (kv : String × String) (tl : HeadersL) (name : String) :
    headerGet (kv :: tl) name =
      if lc kv.1 = lc name then some kv.2 else headerGet tl name := by
  simp only [headerGet, List.find?_cons]
  by_cases h : lc kv.1 = lc name
  · simp [h]
  · simp [h]

lemma headerGet_headerDel (hs : HeadersL) (n name : String) :
    headerGet (headerDel hs n) name =
      if lc name = lc n then none else headerGet hs name := by
  induction hs with
  | nil => simp [headerGet, headerDel]
  | cons kv tl ih =>
    rw [headerDel, List.filter_cons]
    by_cases hk : lc kv.1 = lc n
    · have hc : decide (lc kv.1 ≠ lc n) = false := by simp [hk]
      rw [hc]
      simp only [Bool.false_eq_true, if_false]
      rw [show List.filter (fun kv => decide (lc kv.1 ≠ lc n)) tl = headerDel tl n from rfl, ih,
        headerGet_cons]
      by_cases hn : lc name = lc n
      · simp [hn]
      · have hkv : lc kv.1 ≠ lc name := by
          rw [hk]; exact fun h => hn h.symm
        simp [hn, hkv]
    · have hc : decide (lc kv.1 ≠ lc n) = true := by simp [hk]
      rw [hc]
      simp only [if_true]
      rw [headerGet_cons,
        show List.filter (fun kv => decide (lc kv.1 ≠ lc n)) tl = headerDel tl n from rfl, ih,
        headerGet_cons]
      by_cases hm : lc kv.1 = lc name
      · have hn : lc name ≠ lc n := fun h => hk (hm.trans h)
        simp [hm, hn]
      · simp [hm]

lemma listGetD_append {α : Type} (l l' : List α) (n : Nat) (d : α) (h : n < l.length) :
    (l ++ l').getD n d = l.getD n d := by
  induction l generalizing n with
  | nil => simp at h
  | cons a tl ih =>
    cases n with
    | zero => rfl
    | succ m => exact ih m (by simpa using h)

lemma listGetD_concat_length {α : Type} (l : List α) (a d : α) :
    (l ++ [a]).getD l.length d = a := by
  induction l with
  | nil => rfl
  | cons b tl ih => exact ih

lemma listGetD_set_ne {α : Type} (l : List α) (i j : Nat) (a d : α) (h : i ≠ j) :
    (l.set i a).getD j d = l.getD j d := by
  induction l generalizing i j with
  | nil => rfl
  | cons b tl ih =>
    cases i with
    | zero =>
      cases j with
      | zero => exact absurd rfl h
      | succ m => rfl
    | succ k =>
      cases j with
      | zero => rfl
      | succ m => exact ih k m (fun e => h (by rw [e]))

lemma listGetD_set_eq {α : Type} (l : List α) (i : Nat) (a d : α) (h : i < l.length) :
    (l.set i a).getD i d = a := by
  induction l generalizing i with
  | nil => simp at h
  | cons b tl ih =>
    cases i with
    | zero => rfl
    | succ k => exact ih k (by simpa using h)

/-- C5: for every request method and redirect status code, the derived
method applies, in order: 303 with non-HEAD gives GET, then 302 with
non-HEAD gives GET, then 301 with POST gives GET, else unchanged; in
particular (303, POST), (302, POST), (301, POST) give GET, (301, PUT)
keeps PUT, and HEAD is preserved for every status. -/
theorem C5_redirect_method_rules (request : Request) (response : TResponse) :
    (redirect_method request response =
      if response.status_code = 303 ∧ request.method ≠ "HEAD" then "GET"
      else if response.status_code = 302 ∧ request.method ≠ "HEAD" then "GET"
      else if response.status_code = 301 ∧ request.method = "POST" then "GET"
      else request.method)
    ∧ (request.method = "HEAD" → redirect_method request response = "HEAD")
    ∧ (request.method = "POST" →
        response.status_code = 303 ∨ response.status_code = 302 ∨ response.status_code = 301 →
        redirect_method request response = "GET")
    ∧ (request.method = "PUT" → response.status_code = 301 →
        redirect_method request response = "PUT") := by
  refine ⟨?_, ?_, ?_, ?_⟩
  · simp only [redirect_method, codes.see_other, codes.found, codes.moved_permanently]
    split_ifs <;> simp_all
  · intro h
    simp [redirect_method, codes.see_other, codes.found, codes.moved_permanently, h]
  · rintro h (h3 | h3 | h3) <;>
      simp [redirect_method, codes.see_other, codes.found, codes.moved_permanently, h, h3]
  · intro h h3
    simp [redirect_method, codes.see_other, codes.found, codes.moved_permanently, h, h3]

/-- Witness for C5 at concrete inputs. -/
theorem C5_witness :
    redirect_method { method := "POST", url := "u", headers := [], body := RBody.bytes [] }
        { status_code := 303, headers := [] } = "GET"
    ∧ redirect_method { method := "PUT", url := "u", headers := [], body := RBody.bytes [] }
        { status_code := 301, headers := [] } = "PUT"
    ∧ redirect_method { method := "HEAD", url := "u", headers := [], body := RBody.bytes [] }
        { status_code := 302, headers := [] } = "HEAD" :=
  ⟨(C5_redirect_method_rules _ _).2.2.1 rfl (Or.inl rfl),
   (C5_redirect_method_rules _ _).2.2.2 rfl rfl,
   (C5_redirect_method_rules _ _).2.1 rfl⟩

/-- C10: for every request method and response status code, the derived
method is either the original request method or the string "GET". -/
theorem C10_redirect_method_range (request : Request) (response : TResponse) :
    redirect_method request response = request.method
    ∨ redirect_method request response = "GET" := by
  simp only [redirect_method, codes.see_other, codes.found, codes.moved_permanently]
  split_ifs <;> simp

/-- C6: the next body is empty exactly on a change of method to GET;
otherwise a streaming body raises `RedirectBodyUnavailable` and a byte
body is reused unchanged; in particular a streaming-body request kept
its method by a 307 and fails, while a streaming-body POST downgraded
by a 303 succeeds with an empty body. -/
theorem C6_redirect_body_rules (request : Request) (method : String) :
    (method ≠ request.method ∧ method = "GET" → redirect_body request method = Except.ok [])
    ∧ (¬(method ≠ request.method ∧ method = "GET") → request.is_streaming = true →
        redirect_body request method = Except.error HErr.RedirectBodyUnavailable)
    ∧ (∀ d, ¬(method ≠ request.method ∧ method = "GET") → request.body = RBody.bytes d →
        redirect_body request method = Except.ok d)
    ∧ (∀ th : HeadersL, request.is_streaming = true →
        redirect_body request (redirect_method request { status_code := 307, headers := th })
          = Except.error HErr.RedirectBodyUnavailable)
    ∧ (∀ th : HeadersL, request.method = "POST" → request.is_streaming = true →
        redirect_body request (redirect_method request { status_code := 303, headers := th })
          = Except.ok []) := by
  refine ⟨?_, ?_, ?_, ?_, ?_⟩
  · rintro ⟨h1, rfl⟩
    simp only [redirect_body]
    rw [if_pos ⟨h1, trivial⟩]
  · intro h hs
    simp [redirect_body, h, hs]
  · intro d h hd
    have hs : request.is_streaming = false := by simp [Request.is_streaming, hd]
    simp [redirect_body, h, hs, hd]
  · intro th hs
    have hm : redirect_method request { status_code := 307, headers := th } = request.method := by
      simp [redirect_method, codes.see_other, codes.found, codes.moved_permanently]
    rw [hm]
    simp [redirect_body, hs]
  · intro th hp hs
    have hm : redirect_method request { status_code := 303, headers := th } = "GET" := by
      simp [redirect_method, codes.see_other, codes.found, codes.moved_permanently, hp]
    rw [hm]
    simp [redirect_body, hp]

/-- Witness for C6 at concrete inputs: a streaming POST fails under 307 and
succeeds with an empty body under 303. -/
theorem C6_witness :
    redirect_body { method := "POST", url := "u", headers := [], body := RBody.streaming }
        (redirect_method { method := "POST", url := "u", headers := [], body := RBody.streaming }
          { status_code := 307, headers := [] })
      = Except.error HErr.RedirectBodyUnavailable
    ∧ redirect_body { method := "POST", url := "u", headers := [], body := RBody.streaming }
        (redirect_method { method := "POST", url := "u", headers := [], body := RBody.streaming }
          { status_code := 303, headers := [] })
      = Except.ok [] :=
  ⟨(C6_redirect_body_rules _ "x").2.2.2.1 [] rfl,
   (C6_redirect_body_rules _ "x").2.2.2.2 [] rfl rfl⟩

/-- C3: the next request's headers are the current request's headers with
`Authorization` removed exactly when the next URL's origin differs from the
request URL's origin; same-origin redirects keep the headers identical, and
cross-origin redirects change no header other than `Authorization`. -/
theorem C3_redirect_headers_auth (p : UrlPrims) (request : Request) (url : String) :
    (p.originOf url = p.originOf request.url → redirect_headers p request url = request.headers)
    ∧ (p.originOf url ≠ p.originOf request.url →
        headerGet (redirect_headers p request url) "Authorization" = none
        ∧ ∀ name, lc name ≠ lc "Authorization" →
            headerGet (redirect_headers p request url) name = headerGet request.headers name) := by
  constructor
  · intro h
    simp [redirect_headers, h]
  · intro h
    constructor
    · simp [redirect_headers, h, headerGet_headerDel]
    · intro name hn
      simp [redirect_headers, h, headerGet_headerDel, hn]

/-- Witness for C3: a cross-origin redirect of `reqAuth` loses
`Authorization` and keeps `Accept`. -/
theorem C3_witness :
    headerGet (redirect_headers cp reqAuth "http://b/") "Authorization" = none
    ∧ headerGet (redirect_headers cp reqAuth "http://b/") "Accept"
        = headerGet reqAuth.headers "Accept" :=
  ⟨((C3_redirect_headers_auth cp reqAuth "http://b/").2 (by decide)).1,
   ((C3_redirect_headers_auth cp reqAuth "http://b/").2 (by decide)).2 "Accept" (by decide)⟩

/-- C9: deriving redirect headers leaves the request's own headers object
unmodified: the derivation allocates a fresh copy, so the original object
reads back unchanged, while the fresh object holds exactly what the pure
`redirect_headers` computes. -/
theorem C9_redirect_headers_frame (p : UrlPrims) (s : HeaderStore) (reqRef : Nat)
    (reqUrl url : String) (h : reqRef < s.cells.length) :
    ((redirect_headers_obj p s reqRef reqUrl url).1).read reqRef = s.read reqRef
    ∧ ∀ (m : String) (b : RBody),
        ((redirect_headers_obj p s reqRef reqUrl url).1).read
            (redirect_headers_obj p s reqRef reqUrl url).2
          = redirect_headers p { method := m, url := reqUrl, headers := s.read reqRef, body := b }
              url := by
  have hne : s.cells.length ≠ reqRef := by omega
  by_cases hor : p.originOf url ≠ p.originOf reqUrl
  · have e1 : redirect_headers_obj p s reqRef reqUrl url
        = (HeaderStore.mk ((s.cells ++ [s.read reqRef]).set s.cells.length
            (headerDel (s.read reqRef) "Authorization")), s.cells.length) := by
      simp only [redirect_headers_obj, HeaderStore.alloc, HeaderStore.delAt, HeaderStore.read,
        if_pos hor]
      rw [listGetD_concat_length]
    refine ⟨?_, ?_⟩
    · rw [e1]
      simp only [HeaderStore.read]
      rw [listGetD_set_ne _ _ _ _ _ hne, listGetD_append _ _ _ _ h]
    · intro m b
      rw [e1]
      simp only [HeaderStore.read]
      rw [listGetD_set_eq]
      · simp [redirect_headers, hor]
      · simp [Nat.lt_succ_self]
  · have e2 : redirect_headers_obj p s reqRef reqUrl url
        = (HeaderStore.mk (s.cells ++ [s.read reqRef]), s.cells.length) := by
      simp only [redirect_headers_obj, HeaderStore.alloc, HeaderStore.delAt, HeaderStore.read,
        if_neg hor]
    refine ⟨?_, ?_⟩
    · rw [e2]
      simp only [HeaderStore.read]
      rw [listGetD_append _ _ _ _ h]
    · intro m b
      rw [e2]
      simp only [HeaderStore.read]
      rw [listGetD_concat_length]
      simp [redirect_headers, hor]

/-- Witness for C9: after a cross-origin header derivation the original
headers object of `st0` still holds its `Authorization` entry. -/
theorem C9_witness :
    ((redirect_headers_obj cp st0 0 "http://a/" "http://b/").1).read 0
      = [("Authorization", "secret"), ("Accept", "x")] :=
  ((C9_redirect_headers_frame cp st0 0 "http://a/" "http://b/" (by decide)).1).trans rfl

/-- C7 counterexample: for the request URL `http://x/a b/` and the
authority-less Location target `y`, the code's next URL joins the requoted
target onto the base and so keeps the base's raw space, whereas resolving
first and then percent-re-encoding (as the claim states) would encode it;
the two results differ. -/
theorem C7_counterexample :
    redirect_url cp reqX tRelY = some "http://x/a b/y"
    ∧ redirect_url_resolve_then_requote cp reqX tRelY = some "http://x/a%20b/y"
    ∧ redirect_url cp reqX tRelY ≠ redirect_url_resolve_then_requote cp reqX tRelY :=
  ⟨rfl, rfl, by decide⟩

/-- C7 (amended): for a Location target (after scheme-prefixing and fragment
inheritance) without an authority component, the next URL equals the result
of percent-re-encoding the target first and then resolving the re-encoded
target against the current request's URL; with an authority component it is
percent-re-encoded directly without re-basing. -/
theorem C7_amended_requote_then_resolve (p : UrlPrims) (request : Request)
    (response : TResponse) :
    redirect_url p request response = redirect_url_requote_then_resolve p request response := rfl

lemma mem_insertUrl_self (seen : List String) (u : String) : u ∈ insertUrl seen u := by
  by_cases h : u ∈ seen
  · simp [insertUrl, h]
  · simp [insertUrl, h]

lemma mem_insertUrl_iff (seen : List String) (v x : String) :
    x ∈ insertUrl seen v ↔ x ∈ seen ∨ x = v := by
  by_cases h : v ∈ seen
  · simp only [insertUrl, if_pos h]
    exact ⟨Or.inl, fun hx => hx.elim id (fun e => e ▸ h)⟩
  · simp [insertUrl, if_neg h]

lemma sendIter_cons_cases (p : UrlPrims) (maxR : Nat) (ar : Bool) (t : TResponse)
    (rest : List TResponse) (req : Request) (h : List Response) (seen : List String) :
    (is_redirect t.status_code = false
      ∧ sendIter p maxR ar (t :: rest) req h seen
          = ([req.url], SendResult.ok (Response.mk t.status_code t.headers h none)))
    ∨ (∃ e, is_redirect t.status_code = true
        ∧ build_redirect_request p req t = Except.error e
        ∧ sendIter p maxR ar (t :: rest) req h seen = ([req.url], SendResult.err e))
    ∨ (∃ req', is_redirect t.status_code = true
        ∧ build_redirect_request p req t = Except.ok req'
        ∧ ar = false
        ∧ sendIter p maxR ar (t :: rest) req h seen
            = ([req.url], SendResult.ok (Response.mk t.status_code t.headers h
                (some (req', h ++ [Response.mk t.status_code t.headers h none], seen)))))
    ∨ (∃ req', is_redirect t.status_code = true
        ∧ build_redirect_request p req t = Except.ok req'
        ∧ ar = true
        ∧ h.length + 1 > maxR
        ∧ sendIter p maxR ar (t :: rest) req h seen
            = ([req.url], SendResult.err HErr.TooManyRedirects))
    ∨ (∃ req', is_redirect t.status_code = true
        ∧ build_redirect_request p req t = Except.ok req'
        ∧ ar = true
        ∧ h.length + 1 ≤ maxR
        ∧ req'.url ∈ seen
        ∧ sendIter p maxR ar (t :: rest) req h seen
            = ([req.url], SendResult.err HErr.RedirectLoop))
    ∨ (∃ req', is_redirect t.status_code = true
        ∧ build_redirect_request p req t = Except.ok req'
        ∧ ar = true
        ∧ h.length + 1 ≤ maxR
        ∧ req'.url ∉ seen
        ∧ sendIter p maxR ar (t :: rest) req h seen
            = (req.url
                :: (sendIter p maxR ar rest req'
                      (h ++ [Response.mk t.status_code t.headers h none])
                      (insertUrl seen req'.url)).1,
               (sendIter p maxR ar rest req'
                      (h ++ [Response.mk t.status_code t.headers h none])
                      (insertUrl seen req'.url)).2)) := by
  by_cases hr : is_redirect t.status_code = false
  · exact Or.inl ⟨hr, by simp only [sendIter]; rw [if_pos hr]⟩
  · have hrt : is_redirect t.status_code = true := by
      revert hr; cases is_redirect t.status_code <;> simp
    cases hb : build_redirect_request p req t with
    | error e =>
      refine Or.inr (Or.inl ⟨e, hrt, rfl, ?_⟩)
      simp only [sendIter]
      rw [if_neg hr]
      simp only [hb]
    | ok req' =>
      cases ar with
      | false =>
        refine Or.inr (Or.inr (Or.inl ⟨req', hrt, rfl, rfl, ?_⟩))
        simp only [sendIter]
        rw [if_neg hr]
        simp only [hb]
        simp
      | true =>
        by_cases hlim : (h ++ [Response.mk t.status_code t.headers h none]).length > maxR
        · refine Or.inr (Or.inr (Or.inr (Or.inl ⟨req', hrt, rfl, rfl, by simpa using hlim, ?_⟩)))
          simp only [sendIter]
          rw [if_neg hr]
          simp only [hb]
          rw [if_neg (show ¬(true = false) by simp), if_pos hlim]
        · have hlim' : h.length + 1 ≤ maxR := by simpa using Nat.le_of_not_lt hlim
          by_cases hloop : req'.url ∈ seen
          · refine Or.inr (Or.inr (Or.inr (Or.inr (Or.inl
              ⟨req', hrt, rfl, rfl, hlim', hloop, ?_⟩))))
            simp only [sendIter]
            rw [if_neg hr]
            simp only [hb]
            rw [if_neg (show ¬(true = false) by simp), if_neg hlim, if_pos hloop]
          · refine Or.inr (Or.inr (Or.inr (Or.inr (Or.inr
              ⟨req', hrt, rfl, rfl, hlim', hloop, ?_⟩))))
            simp only [sendIter]
            rw [if_neg hr]
            simp only [hb]
            rw [if_neg (show ¬(true = false) by simp), if_neg hlim, if_neg hloop]

lemma sendIter_trace_nodup (p : UrlPrims) (maxR : Nat) :
    ∀ (script : List TResponse) (req : Request) (h : List Response) (seen : List String),
      req.url ∈ seen →
      (sendIter p maxR true script req h seen).1.Nodup
      ∧ ∀ u ∈ (sendIter p maxR true script req h seen).1, u = req.url ∨ u ∉ seen := by
  intro script
  induction script with
  | nil =>
    intro req h seen _
    simp [sendIter]
  | cons t rest ih =>
    intro req h seen hmem
    simp only [sendIter]
    by_cases hr : is_redirect t.status_code = false
    · rw [if_pos hr]
      exact ⟨List.nodup_singleton _, by intro u hu; rw [List.mem_singleton] at hu; exact Or.inl hu⟩
    · rw [if_neg hr]
      cases hb : build_redirect_request p req t with
      | error e =>
        simp only [hb]
        exact ⟨List.nodup_singleton _,
          by intro u hu; rw [List.mem_singleton] at hu; exact Or.inl hu⟩
      | ok req' =>
        simp only [hb]
        have htf : ¬(true = false) := by simp
        rw [if_neg htf]
        by_cases hlim : (h ++ [Response.mk t.status_code t.headers h none]).length > maxR
        · rw [if_pos hlim]
          exact ⟨List.nodup_singleton _,
            by intro u hu; rw [List.mem_singleton] at hu; exact Or.inl hu⟩
        · rw [if_neg hlim]
          by_cases hloop : req'.url ∈ seen
          · rw [if_pos hloop]
            exact ⟨List.nodup_singleton _,
              by intro u hu; rw [List.mem_singleton] at hu; exact Or.inl hu⟩
          · rw [if_neg hloop]
            obtain ⟨nd, hp⟩ := ih req' (h ++ [Response.mk t.status_code t.headers h none])
              (insertUrl seen req'.url) (mem_insertUrl_self seen req'.url)
            have hreqne : req.url ≠ req'.url := fun e => hloop (e ▸ hmem)
            refine ⟨?_, ?_⟩
            · refine List.Nodup.cons ?_ nd
              intro hcon
              rcases hp req.url hcon with he | hni
              · exact hreqne he
              · exact hni ((mem_insertUrl_iff seen req'.url req.url).mpr (Or.inl hmem))
            · intro u hu
              rcases List.mem_cons.mp hu with he | ht
              · exact Or.inl he
              · rcases hp u ht with he | hni
                · exact Or.inr (fun hus => hloop (he ▸ hus))
                · exact Or.inr (fun hus =>
                    hni ((mem_insertUrl_iff seen req'.url u).mpr (Or.inl hus)))

/-- C2 (amended): within one controller invocation in automatic mode the
transport is never invoked twice for the same URL: any next request built
by the loop whose URL is already in the visited set raises `RedirectLoop`
before that URL is sent, as the concrete looping chain shows; a request
captured in a Deferred Continuation is, on resumption, dispatched without
this check, and in manual mode next requests are deferred unchecked. -/
theorem C2_amended_no_duplicate_sends :
    (∀ (p : UrlPrims) (maxR : Nat) (req : Request) (h : List Response) (seen : List String)
        (script : List TResponse),
      ((send p maxR req true h seen script).1).Nodup)
    ∧ (send cp 20 reqA true [] [] [t301A, t200]).2 = SendResult.err HErr.RedirectLoop
    ∧ (send cp 20 reqA true [] [] [t301A, t200]).1 = ["http://a/"] := by
  refine ⟨?_, rfl, rfl⟩
  intro p maxR req h seen script
  exact (sendIter_trace_nodup p maxR script req h (insertUrl seen req.url)
    (mem_insertUrl_self seen req.url)).1

/-- C2 counterexample: in manual mode the continuation captured after the
self-redirect carries a next request whose URL is already in the visited
set; resuming it dispatches that URL again (a second network send for the
same URL in the chain) and no `RedirectLoop` is raised. -/
theorem C2_counterexample :
    (send cp 20 reqA false [] [] [t301A]).2
      = SendResult.ok (Response.mk 301 [("Location", "http://a/")] [] (some contA))
    ∧ contA.1.url ∈ contA.2.2
    ∧ resume cp 20 contA true [t200]
        = (["http://a/"], SendResult.ok (Response.mk 200 [] [resp301A] none))
    ∧ (resume cp 20 contA true [t200]).2 ≠ SendResult.err HErr.RedirectLoop := by
  refine ⟨rfl, by decide, rfl, ?_⟩
  intro hcon
  nomatch hcon

lemma redirect_body_error (req : Request) (m : String) (e : HErr)
    (h : redirect_body req m = Except.error e) : e = HErr.RedirectBodyUnavailable := by
  unfold redirect_body at h
  split_ifs at h with h1 h2
  · injection h with h'
    exact h'.symm
  · cases hb : req.body with
    | bytes d =>
      rw [hb] at h
      nomatch h
    | streaming =>
      rw [hb] at h
      injection h with h'
      exact h'.symm

lemma build_error (p : UrlPrims) (req : Request) (t : TResponse) (e : HErr)
    (h : build_redirect_request p req t = Except.error e) :
    e = HErr.MissingLocation ∨ e = HErr.RedirectBodyUnavailable := by
  simp only [build_redirect_request] at h
  cases hu : redirect_url p req t with
  | none =>
    rw [hu] at h
    injection h with h'
    exact Or.inl h'.symm
  | some url =>
    rw [hu] at h
    cases hb : redirect_body req (redirect_method req t) with
    | error e' =>
      rw [hb] at h
      injection h with h'
      exact Or.inr (h' ▸ redirect_body_error _ _ _ hb)
    | ok b =>
      rw [hb] at h
      nomatch h

lemma sendIter_trace_le (p : UrlPrims) (maxR : Nat) :
    ∀ (script : List TResponse) (req : Request) (h : List Response) (seen : List String),
      h.length ≤ maxR →
      (sendIter p maxR true script req h seen).1.length + h.length ≤ maxR + 1 := by
  intro script
  induction script with
  | nil =>
    intro req h seen hle
    simp only [sendIter, List.length_nil]
    omega
  | cons t rest ih =>
    intro req h seen hle
    rcases sendIter_cons_cases p maxR true t rest req h seen with
      ⟨hr, he⟩ | ⟨e, hrt, hb, he⟩ | ⟨req', hrt, hb, har, he⟩ | ⟨req', hrt, hb, har, hlim, he⟩ |
      ⟨req', hrt, hb, har, hlim, hloop, he⟩ | ⟨req', hrt, hb, har, hlim, hloop, he⟩
    · rw [he]
      simp only [List.length_cons, List.length_nil]
      omega
    · rw [he]
      simp only [List.length_cons, List.length_nil]
      omega
    · exact absurd har (by simp)
    · rw [he]
      simp only [List.length_cons, List.length_nil]
      omega
    · rw [he]
      simp only [List.length_cons, List.length_nil]
      omega
    · rw [he]
      have hrec := ih req' (h ++ [Response.mk t.status_code t.headers h none])
        (insertUrl seen req'.url) (by simpa using hlim)
      simp only [List.length_append, List.length_cons, List.length_nil] at hrec ⊢
      omega

lemma sendIter_ok_hist_le (p : UrlPrims) (maxR : Nat) :
    ∀ (script : List TResponse) (req : Request) (h : List Response) (seen : List String)
      (resp : Response),
      h.length ≤ maxR →
      (sendIter p maxR true script req h seen).2 = SendResult.ok resp →
      resp.history.length ≤ maxR := by
  intro script
  induction script with
  | nil =>
    intro req h seen resp hle hok
    simp only [sendIter] at hok
    nomatch hok
  | cons t rest ih =>
    intro req h seen resp hle hok
    rcases sendIter_cons_cases p maxR true t rest req h seen with
      ⟨hr, he⟩ | ⟨e, hrt, hb, he⟩ | ⟨req', hrt, hb, har, he⟩ | ⟨req', hrt, hb, har, hlim, he⟩ |
      ⟨req', hrt, hb, har, hlim, hloop, he⟩ | ⟨req', hrt, hb, har, hlim, hloop, he⟩
    · rw [he] at hok
      cases hok
      exact hle
    · rw [he] at hok
      nomatch hok
    · exact absurd har (by simp)
    · rw [he] at hok
      nomatch hok
    · rw [he] at hok
      nomatch hok
    · rw [he] at hok
      exact ih req' (h ++ [Response.mk t.status_code t.headers h none])
        (insertUrl seen req'.url) resp (by simpa using hlim) hok

lemma sendIter_tooMany (p : UrlPrims) (maxR : Nat) :
    ∀ (script : List TResponse) (req : Request) (h : List Response) (seen : List String),
      h.length ≤ maxR →
      (sendIter p maxR true script req h seen).2 = SendResult.err HErr.TooManyRedirects →
      (sendIter p maxR true script req h seen).1.length + h.length = maxR + 1
      ∧ ∀ u ∈ script.take (maxR + 1 - h.length), is_redirect u.status_code = true := by
  intro script
  induction script with
  | nil =>
    intro req h seen hle hok
    simp only [sendIter] at hok
    nomatch hok
  | cons t rest ih =>
    intro req h seen hle hok
    rcases sendIter_cons_cases p maxR true t rest req h seen with
      ⟨hr, he⟩ | ⟨e, hrt, hb, he⟩ | ⟨req', hrt, hb, har, he⟩ | ⟨req', hrt, hb, har, hlim, he⟩ |
      ⟨req', hrt, hb, har, hlim, hloop, he⟩ | ⟨req', hrt, hb, har, hlim, hloop, he⟩
    · rw [he] at hok
      nomatch hok
    · rw [he] at hok
      have he' : e = HErr.TooManyRedirects := by injection hok
      rcases build_error p req t e hb with h1 | h1 <;> rw [he'] at h1 <;> nomatch h1
    · exact absurd har (by simp)
    · refine ⟨?_, ?_⟩
      · rw [he]
        simp only [List.length_cons, List.length_nil]
        omega
      · have hk : maxR + 1 - h.length = 0 + 1 := by omega
        rw [hk, List.take_succ_cons]
        intro u hu
        simp only [List.take_zero, List.mem_singleton] at hu
        rw [hu]
        exact hrt
    · rw [he] at hok
      have h' : HErr.RedirectLoop = HErr.TooManyRedirects := by injection hok
      nomatch h'
    · rw [he] at hok
      obtain ⟨ihl, iht⟩ := ih req' (h ++ [Response.mk t.status_code t.headers h none])
        (insertUrl seen req'.url) (by simpa using hlim) hok
      refine ⟨?_, ?_⟩
      · rw [he]
        simp only [List.length_append, List.length_cons, List.length_nil] at ihl ⊢
        omega
      · intro u hu
        have hk : maxR + 1 - h.length = (maxR + 1 - (h.length + 1)) + 1 := by omega
        rw [hk, List.take_succ_cons] at hu
        rcases List.mem_cons.mp hu with rfl | htail
        · exact hrt
        · simp only [List.length_append, List.length_cons, List.length_nil] at iht
          exact iht u htail

lemma sendIter_loop_le (p : UrlPrims) (maxR : Nat) :
    ∀ (script : List TResponse) (req : Request) (h : List Response) (seen : List String),
      h.length ≤ maxR →
      (sendIter p maxR true script req h seen).2 = SendResult.err HErr.RedirectLoop →
      (sendIter p maxR true script req h seen).1.length + h.length ≤ maxR := by
  intro script
  induction script with
  | nil =>
    intro req h seen hle hok
    simp only [sendIter] at hok
    nomatch hok
  | cons t rest ih =>
    intro req h seen hle hok
    rcases sendIter_cons_cases p maxR true t rest req h seen with
      ⟨hr, he⟩ | ⟨e, hrt, hb, he⟩ | ⟨req', hrt, hb, har, he⟩ | ⟨req', hrt, hb, har, hlim, he⟩ |
      ⟨req', hrt, hb, har, hlim, hloop, he⟩ | ⟨req', hrt, hb, har, hlim, hloop, he⟩
    · rw [he] at hok
      nomatch hok
    · rw [he] at hok
      have he' : e = HErr.RedirectLoop := by injection hok
      rcases build_error p req t e hb with h1 | h1 <;> rw [he'] at h1 <;> nomatch h1
    · exact absurd har (by simp)
    · rw [he] at hok
      have h' : HErr.TooManyRedirects = HErr.RedirectLoop := by injection hok
      nomatch h'
    · rw [he]
      simp only [List.length_cons, List.length_nil]
      omega
    · rw [he] at hok ⊢
      have hrec := ih req' (h ++ [Response.mk t.status_code t.headers h none])
        (insertUrl seen req'.url) (by simpa using hlim) hok
      simp only [List.length_append, List.length_cons, List.length_nil] at hrec ⊢
      omega

lemma sendIter_ok_nonredirect (p : UrlPrims) (maxR : Nat) :
    ∀ (script : List TResponse) (req : Request) (h : List Response) (seen : List String)
      (resp : Response),
      (sendIter p maxR true script req h seen).2 = SendResult.ok resp →
      ∃ u ∈ script.take (sendIter p maxR true script req h seen).1.length,
        is_redirect u.status_code = false := by
  intro script
  induction script with
  | nil =>
    intro req h seen resp hok
    simp only [sendIter] at hok
    nomatch hok
  | cons t rest ih =>
    intro req h seen resp hok
    rcases sendIter_cons_cases p maxR true t rest req h seen with
      ⟨hr, he⟩ | ⟨e, hrt, hb, he⟩ | ⟨req', hrt, hb, har, he⟩ | ⟨req', hrt, hb, har, hlim, he⟩ |
      ⟨req', hrt, hb, har, hlim, hloop, he⟩ | ⟨req', hrt, hb, har, hlim, hloop, he⟩
    · rw [he]
      exact ⟨t, by simp, hr⟩
    · rw [he] at hok
      nomatch hok
    · exact absurd har (by simp)
    · rw [he] at hok
      nomatch hok
    · rw [he] at hok
      nomatch hok
    · rw [he] at hok ⊢
      obtain ⟨u, hu, hur⟩ := ih req' (h ++ [Response.mk t.status_code t.headers h none])
        (insertUrl seen req'.url) resp hok
      refine ⟨u, ?_, hur⟩
      simp only [List.length_cons, List.take_succ_cons]
      exact List.mem_cons_of_mem t hu

/-- C4: for every automatic chain with maximum `maxR`, a returned response
carries a history of length at most `maxR + 1`, and the chain fails with
`TooManyRedirects` exactly when a `(maxR + 1)`-th redirect hop would be
required: exactly `maxR + 1` dispatches have then happened (so the
over-limit request was never sent), the first `maxR + 1` transport
responses were all redirects, and request construction did not fail
earlier (nor did the response script run out). -/
theorem C4_too_many_redirects (p : UrlPrims) (maxR : Nat) (req : Request)
    (script : List TResponse) :
    (∀ resp, (send p maxR req true [] [] script).2 = SendResult.ok resp →
        resp.history.length ≤ maxR + 1)
    ∧ ((send p maxR req true [] [] script).2 = SendResult.err HErr.TooManyRedirects ↔
        ((send p maxR req true [] [] script).1.length = maxR + 1
         ∧ (∀ u ∈ script.take (maxR + 1), is_redirect u.status_code = true)
         ∧ (send p maxR req true [] [] script).2 ≠ SendResult.err HErr.RedirectBodyUnavailable
         ∧ (send p maxR req true [] [] script).2 ≠ SendResult.err HErr.MissingLocation
         ∧ (send p maxR req true [] [] script).2 ≠ SendResult.outOfScript)) := by
  simp only [send]
  constructor
  · intro resp hok
    have := sendIter_ok_hist_le p maxR script req [] (insertUrl [] req.url) resp
      (Nat.zero_le _) hok
    omega
  · constructor
    · intro htm
      obtain ⟨hlen, htake⟩ := sendIter_tooMany p maxR script req [] (insertUrl [] req.url)
        (Nat.zero_le _) htm
      simp only [List.length_nil, Nat.sub_zero] at hlen htake
      refine ⟨by omega, htake, ?_, ?_, ?_⟩
      · rw [htm]
        intro hcon
        injection hcon with h'
        nomatch h'
      · rw [htm]
        intro hcon
        injection hcon with h'
        nomatch h'
      · rw [htm]
        intro hcon
        nomatch hcon
    · rintro ⟨hlen, htake, hne1, hne2, hne3⟩
      cases hres : (sendIter p maxR true script req [] (insertUrl [] req.url)).2 with
      | ok r =>
        obtain ⟨u, hu, hur⟩ := sendIter_ok_nonredirect p maxR script req []
          (insertUrl [] req.url) r hres
        rw [hlen] at hu
        exact absurd (htake u hu) (by simp [hur])
      | err e =>
        cases e with
        | TooManyRedirects => rfl
        | RedirectLoop =>
          have hll := sendIter_loop_le p maxR script req [] (insertUrl [] req.url)
            (Nat.zero_le _) hres
          simp only [List.length_nil, Nat.add_zero] at hll
          omega
        | RedirectBodyUnavailable => exact absurd hres hne1
        | MissingLocation => exact absurd hres hne2
      | outOfScript => exact absurd hres hne3

/-- Witness for C4: with `maxR = 1` and two consecutive redirects the run
fails with `TooManyRedirects` after exactly `maxR + 1 = 2` dispatches. -/
theorem C4_witness :
    (send cp 1 reqA true [] [] [t301B, t301C, t200]).1.length = 1 + 1 :=
  ((C4_too_many_redirects cp 1 reqA [t301B, t301C, t200]).2.mp rfl).1

lemma histInv_append (h : List Response) (r : Response) (hinv : HistInv h)
    (hr : r.history = h) : HistInv (h ++ [r]) := by
  intro i hi
  rcases Nat.lt_or_ge i h.length with hlt | hge
  · rw [List.get_eq_getElem, List.getElem_append_left hlt,
      List.take_append_of_le_length (Nat.le_of_lt hlt)]
    exact hinv i hlt
  · have hieq : i = h.length := by
      have : i < h.length + 1 := by simpa using hi
      omega
    subst hieq
    rw [List.get_eq_getElem, List.getElem_concat_length h r h.length rfl,
      List.take_append_of_le_length (Nat.le_refl _), List.take_length]
    exact hr

lemma take_restrict (res h : List Response) (x : Response)
    (htake : res.take (h ++ [x]).length = h ++ [x]) : res.take h.length = h := by
  have hmin : min h.length (h ++ [x]).length = h.length := by
    simp only [List.length_append, List.length_cons, List.length_nil]
    omega
  have h2 : (res.take (h ++ [x]).length).take h.length = res.take h.length := by
    rw [List.take_take, hmin]
  rw [← h2, htake, List.take_append_of_le_length (Nat.le_refl _), List.take_length]

lemma sendIter_ok_hist (p : UrlPrims) (maxR : Nat) (ar : Bool) :
    ∀ (script : List TResponse) (req : Request) (h : List Response) (seen : List String)
      (resp : Response),
      HistInv h →
      (sendIter p maxR ar script req h seen).2 = SendResult.ok resp →
      HistInv resp.history ∧ resp.history.take h.length = h ∧ h.length ≤ resp.history.length
      ∧ ∀ c : ContData, resp.next = some c →
          HistInv c.2.1 ∧ c.2.1.take h.length = h ∧ h.length ≤ c.2.1.length := by
  intro script
  induction script with
  | nil =>
    intro req h seen resp hinv hok
    simp only [sendIter] at hok
    nomatch hok
  | cons t rest ih =>
    intro req h seen resp hinv hok
    rcases sendIter_cons_cases p maxR ar t rest req h seen with
      ⟨hr, he⟩ | ⟨e, hrt, hb, he⟩ | ⟨req', hrt, hb, har, he⟩ | ⟨req', hrt, hb, har, hlim, he⟩ |
      ⟨req', hrt, hb, har, hlim, hloop, he⟩ | ⟨req', hrt, hb, har, hlim, hloop, he⟩
    · rw [he] at hok
      cases hok
      refine ⟨hinv, List.take_length _, Nat.le_refl _, ?_⟩
      intro c hc
      nomatch hc
    · rw [he] at hok
      nomatch hok
    · rw [he] at hok
      cases hok
      refine ⟨hinv, List.take_length _, Nat.le_refl _, ?_⟩
      intro c hc
      have hceq : c = (req', h ++ [Response.mk t.status_code t.headers h none], seen) := by
        injection hc with h'
        exact h'.symm
      subst hceq
      refine ⟨histInv_append h _ hinv rfl, ?_, ?_⟩
      · rw [List.take_append_of_le_length (Nat.le_refl _), List.take_length]
      · simp
    · rw [he] at hok
      nomatch hok
    · rw [he] at hok
      nomatch hok
    · rw [he] at hok
      have hinv' := histInv_append h (Response.mk t.status_code t.headers h none) hinv rfl
      obtain ⟨ha, hb2, hc2, hd⟩ := ih req' (h ++ [Response.mk t.status_code t.headers h none])
        (insertUrl seen req'.url) resp hinv' hok
      refine ⟨ha, take_restrict _ _ _ hb2, ?_, ?_⟩
      · exact Nat.le_trans (by simp) hc2
      · intro c hc
        obtain ⟨hda, hdb, hdc⟩ := hd c hc
        exact ⟨hda, take_restrict _ _ _ hdb, Nat.le_trans (by simp) hdc⟩

/-- C8: for every chain (any mode, any pre-seeded state satisfying the
history invariant), a returned response's history extends the starting
history and satisfies the invariant: its `i`-th entry carries as its own
history exactly the `i` previous responses in order (a snapshot taken at
receipt, not a shared reference), and the same holds for the history
captured in a suspended continuation. -/
theorem C8_history_snapshot (p : UrlPrims) (maxR : Nat) (req : Request) (ar : Bool)
    (h : List Response) (seen : List String) (script : List TResponse) (resp : Response)
    (hinv : HistInv h) (hok : (send p maxR req ar h seen script).2 = SendResult.ok resp) :
    HistInv resp.history ∧ resp.history.take h.length = h ∧ h.length ≤ resp.history.length
    ∧ ∀ c : ContData, resp.next = some c →
        HistInv c.2.1 ∧ c.2.1.take h.length = h ∧ h.length ≤ c.2.1.length :=
  sendIter_ok_hist p maxR ar script req h (insertUrl seen req.url) resp hinv hok

/-- Witness for C8: the final response of a concrete two-hop automatic
chain satisfies the history invariant. -/
theorem C8_witness :
    HistInv (Response.mk 200 [] [resp301B] none).history :=
  (C8_history_snapshot cp 20 reqA true [] [] [t301B, t200]
    (Response.mk 200 [] [resp301B] none)
    (fun _ hi => absurd hi (by simp)) rfl).1

/-- C1 (amended): in manual mode every redirect suspends with a
continuation capturing the next request and the chain state (history with
the hop appended, visited set) but not the mode; invoking the continuation
re-enters the controller loop at step 2 with the captured state and the
invocation-time mode, dispatching the captured request without re-running
the limit/loop checks; and whenever those checks would pass for the
captured request, the automatic path equals the first hop followed by the
resumed run, hop for hop on the same transport responses. -/
theorem C1_continuation_resume (p : UrlPrims) (maxR : Nat) (req req' : Request)
    (h : List Response) (seen : List String) (t : TResponse) (rest script2 : List TResponse)
    (hred : is_redirect t.status_code = true)
    (hbuild : build_redirect_request p req t = Except.ok req') :
    (send p maxR req false h seen (t :: rest)
      = ([req.url], SendResult.ok (Response.mk t.status_code t.headers h
          (some (req', h ++ [Response.mk t.status_code t.headers h none],
            insertUrl seen req.url)))))
    ∧ (∀ (c : ContData) (ar : Bool),
        resume p maxR c ar script2 = send p maxR c.1 ar c.2.1 c.2.2 script2)
    ∧ (h.length + 1 ≤ maxR →
        req'.url ∉ insertUrl seen req.url →
        send p maxR req true h seen (t :: rest)
          = (req.url :: (resume p maxR
                (req', h ++ [Response.mk t.status_code t.headers h none],
                  insertUrl seen req.url) true rest).1,
             (resume p maxR
                (req', h ++ [Response.mk t.status_code t.headers h none],
                  insertUrl seen req.url) true rest).2)) := by
  refine ⟨?_, fun c ar => rfl, ?_⟩
  · rcases sendIter_cons_cases p maxR false t rest req h (insertUrl seen req.url) with
      ⟨hr, he⟩ | ⟨e, hrt, hb, he⟩ | ⟨req'', hrt, hb, har, he⟩ | ⟨req'', hrt, hb, har, hlim, he⟩ |
      ⟨req'', hrt, hb, har, hlim, hloop, he⟩ | ⟨req'', hrt, hb, har, hlim, hloop, he⟩
    · rw [hred] at hr
      nomatch hr
    · rw [hbuild] at hb
      nomatch hb
    · rw [hbuild] at hb
      injection hb with hb'
      subst hb'
      exact he
    · nomatch har
    · nomatch har
    · nomatch har
  · intro hlim hloop
    rcases sendIter_cons_cases p maxR true t rest req h (insertUrl seen req.url) with
      ⟨hr, he⟩ | ⟨e, hrt, hb, he⟩ | ⟨req'', hrt, hb, har, he⟩ | ⟨req'', hrt, hb, har, hlim2, he⟩ |
      ⟨req'', hrt, hb, har, hlim2, hloop2, he⟩ | ⟨req'', hrt, hb, har, hlim2, hloop2, he⟩
    · rw [hred] at hr
      nomatch hr
    · rw [hbuild] at hb
      nomatch hb
    · nomatch har
    · rw [hbuild] at hb
      injection hb with hb'
      subst hb'
      omega
    · rw [hbuild] at hb
      injection hb with hb'
      subst hb'
      exact absurd hloop2 hloop
    · rw [hbuild] at hb
      injection hb with hb'
      subst hb'
      exact he

/-- C1 counterexample: for the chain that redirects `http://a/` back to
itself, the automatic path raises `RedirectLoop`, while the manual path
suspends and invoking its continuation (in either mode) dispatches the
captured request without the loop check and returns a 200 response — not
the sequence the automatic path produces. -/
theorem C1_counterexample :
    (send cp 20 reqA true [] [] [t301A, t200]).2 = SendResult.err HErr.RedirectLoop
    ∧ (send cp 20 reqA false [] [] [t301A, t200]).2
        = SendResult.ok (Response.mk 301 [("Location", "http://a/")] [] (some contA))
    ∧ (resume cp 20 contA false [t200]).2
        = SendResult.ok (Response.mk 200 [] [resp301A] none)
    ∧ (resume cp 20 contA true [t200]).2
        = SendResult.ok (Response.mk 200 [] [resp301A] none) :=
  ⟨rfl, rfl, rfl, rfl⟩

/-- Witness for C1 at concrete inputs: the automatic two-hop chain equals
its first hop followed by the resumed continuation. -/
theorem C1_witness :
    send cp 20 reqA true [] [] [t301B, t200]
      = ("http://a/" :: (resume cp 20 (reqB, [resp301B], ["http://a/"]) true [t200]).1,
         (resume cp 20 (reqB, [resp301B], ["http://a/"]) true [t200]).2) :=
  (C1_continuation_resume cp 20 reqA reqB [] [] t301B [t200] [t200] rfl rfl).2.2
    (by decide) (by decide)

end Httpcore
